import Mathlib

namespace Zecscope

/-!
Shallow embedding of the zecscope core (BufferCodec, BlockNormalizer,
ScanOrchestrator, TransactionLedger, AlertEngine, AuditSummarizer) from the
TypeScript sources, together with theorems settling the spec claims.
-/

/-! ## Basic data model (src/web/src/types.ts) -/

inductive TxDirection
  | dirIn
  | dirOut
deriving DecidableEq, Repr

inductive ShieldedPool
  | sapling
  | orchard
deriving DecidableEq, Repr

/-- The `pool` field rendered as in the TypeScript string union. -/
def ShieldedPool.render : ShieldedPool → String
  | .sapling => "sapling"
  | .orchard => "orchard"

structure ViewingKeyProfile where
  id : String
  label : String
  viewingKey : String
  createdAt : Nat
deriving DecidableEq, Repr

/-- Record type `ZecTransaction`. `amountZat` is a decimal string in the source, consumed
through `BigInt`; it is embedded as the non-negative integer it denotes. -/
structure ZecTransaction where
  txid : String
  height : Nat
  time : Nat
  amountZat : Nat
  direction : TxDirection
  memo : Option String
  keyId : String
  pool : ShieldedPool
deriving DecidableEq, Repr

structure AlertRule where
  id : String
  name : String
  ruleType : String
  threshold : Nat
  enabled : Bool
  createdAt : Nat
deriving DecidableEq, Repr

structure Alert where
  id : String
  ruleId : String
  txid : Option String
  message : String
  timestamp : Nat
  acknowledged : Bool
deriving DecidableEq, Repr

/-! ## BufferCodec (src/web/src/wasm/zcashScanner.ts, bufferJsonToHex)

A binary field arrives as an arbitrary JSON-ish value.  The shapes the code
distinguishes: null/undefined, string, array of numbers, object whose `data`
field is an array of numbers, object without such a field, anything else. -/

inductive BufVal
  | nullv
  | strv (s : String)
  | arrv (bytes : List Int)
  | objv (data : Option (List Int))
  | badv
deriving DecidableEq, Repr

/-- Lowercase hex digit for `n < 16`: `(…).toString(16)`. -/
def hexDigit (n : Nat) : Char :=
  if n < 10 then Char.ofNat (48 + n) else Char.ofNat (87 + n)

/-- Encodes one byte: `(b & 0xff).toString(16).padStart(2, '0')`. -/
def byteToHex (b : Int) : String :=
  let v := (b % 256).toNat
  String.mk [hexDigit (v / 16), hexDigit (v % 16)]

/-- Encodes a byte array: `arr.map((b) => (b & 0xff)...).join('')`. -/
def bytesToHex (bs : List Int) : String :=
  String.join (bs.map byteToHex)

def unsupportedEncodingMsg : String := "Unsupported buffer JSON for bytes field"

instance {ε α : Type} [DecidableEq ε] [DecidableEq α] : DecidableEq (Except ε α)
  | .error e, .error f =>
    if h : e = f then isTrue (by rw [h]) else isFalse (by simp [h])
  | .error _, .ok _ => isFalse (by simp)
  | .ok _, .error _ => isFalse (by simp)
  | .ok a, .ok b =>
    if h : a = b then isTrue (by rw [h]) else isFalse (by simp [h])

/-- The codec `bufferJsonToHex`, with `throw` embedded as `Except.error`. -/
def bufferJsonToHex : BufVal → Except String String
  | .nullv => .ok ""
  | .strv s => .ok s
  | .arrv bs => .ok (bytesToHex bs)
  | .objv (some bs) => .ok (bytesToHex bs)
  | .objv none => .error unsupportedEncodingMsg
  | .badv => .error unsupportedEncodingMsg

/-! ## BlockNormalizer (src/web/src/wasm/zcashScanner.ts, mapBlocksForScanner)

Raw blocks carry optional numeric fields (absent / null embedded as `none`)
and binary fields as `BufVal` (`nullv` doubles for an absent field, as in JS
where a missing property reads as `undefined`). -/

structure RawChainMetadata where
  saplingCommitmentTreeSize : Option Int
  orchardCommitmentTreeSize : Option Int
deriving DecidableEq, Repr

structure RawSpend where
  nf : BufVal
deriving DecidableEq, Repr

structure RawOutput where
  cmu : BufVal
  ephemeralKey : BufVal
  ciphertext : BufVal
deriving DecidableEq, Repr

structure RawAction where
  nullifier : BufVal
  nf : BufVal
  cmx : BufVal
  ephemeralKey : BufVal
  ciphertext : BufVal
deriving DecidableEq, Repr

structure RawTx where
  index : Option Int
  txid : BufVal
  hash : BufVal
  fee : Option Int
  spends : Option (List RawSpend)
  outputs : Option (List RawOutput)
  actions : Option (List RawAction)
deriving DecidableEq, Repr

structure RawBlock where
  protoVersion : Option Int
  height : Option Int
  hash : BufVal
  prevHash : BufVal
  time : Option Int
  vtx : Option (List RawTx)
  chainMetadata : Option RawChainMetadata
deriving DecidableEq, Repr

structure ScannerChainMetadata where
  saplingCommitmentTreeSize : Int
  orchardCommitmentTreeSize : Option Int
deriving DecidableEq, Repr

structure ScannerCompactSaplingSpend where
  nf : String
deriving DecidableEq, Repr

structure ScannerCompactSaplingOutput where
  cmu : String
  ephemeralKey : String
  ciphertext : String
deriving DecidableEq, Repr

structure ScannerCompactOrchardAction where
  nf : String
  cmx : String
  ephemeralKey : String
  ciphertext : String
deriving DecidableEq, Repr

structure ScannerCompactTx where
  index : Int
  txid : String
  fee : Option Int
  spends : List ScannerCompactSaplingSpend
  outputs : List ScannerCompactSaplingOutput
  actions : List ScannerCompactOrchardAction
deriving DecidableEq, Repr

structure ScannerCompactBlock where
  protoVersion : Int
  height : Int
  hash : String
  prevHash : String
  time : Int
  vtx : List ScannerCompactTx
  chainMetadata : Option ScannerChainMetadata
deriving DecidableEq, Repr

/-- JavaScript `Array.prototype.map` with a possibly-throwing callback: the
first thrown error escapes the whole map. -/
def mapExcept (f : α → Except ε β) : List α → Except ε (List β)
  | [] => .ok []
  | a :: tl =>
    match f a with
    | .error e => .error e
    | .ok b =>
      match mapExcept f tl with
      | .error e => .error e
      | .ok bs => .ok (b :: bs)

/-- JS nullish coalescing on binary fields: `x ?? y`. -/
def BufVal.orElse (x y : BufVal) : BufVal :=
  match x with
  | .nullv => y
  | v => v

def mapSpend (s : RawSpend) : Except String ScannerCompactSaplingSpend := do
  let nf ← bufferJsonToHex s.nf
  return { nf := nf }

def mapOutput (o : RawOutput) : Except String ScannerCompactSaplingOutput := do
  let cmu ← bufferJsonToHex o.cmu
  let ek ← bufferJsonToHex o.ephemeralKey
  let ct ← bufferJsonToHex o.ciphertext
  return { cmu := cmu, ephemeralKey := ek, ciphertext := ct }

def mapAction (a : RawAction) : Except String ScannerCompactOrchardAction := do
  let nf ← bufferJsonToHex (a.nullifier.orElse a.nf)
  let cmx ← bufferJsonToHex a.cmx
  let ek ← bufferJsonToHex a.ephemeralKey
  let ct ← bufferJsonToHex a.ciphertext
  return { nf := nf, cmx := cmx, ephemeralKey := ek, ciphertext := ct }

def mapTx (tx : RawTx) : Except String ScannerCompactTx := do
  let txid ← bufferJsonToHex (tx.txid.orElse tx.hash)
  let spends ← mapExcept mapSpend (tx.spends.getD [])
  let outputs ← mapExcept mapOutput (tx.outputs.getD [])
  let actions ← mapExcept mapAction (tx.actions.getD [])
  return { index := tx.index.getD 0, txid := txid, fee := tx.fee,
           spends := spends, outputs := outputs, actions := actions }

def mapChainMetadata (m : RawChainMetadata) : ScannerChainMetadata :=
  { saplingCommitmentTreeSize := m.saplingCommitmentTreeSize.getD 0,
    orchardCommitmentTreeSize := m.orchardCommitmentTreeSize }

def mapBlock (b : RawBlock) : Except String ScannerCompactBlock := do
  let hash ← bufferJsonToHex b.hash
  let prevHash ← bufferJsonToHex b.prevHash
  let vtx ← mapExcept mapTx (b.vtx.getD [])
  return { protoVersion := b.protoVersion.getD 0, height := b.height.getD 0,
           hash := hash, prevHash := prevHash, time := b.time.getD 0,
           vtx := vtx, chainMetadata := b.chainMetadata.map mapChainMetadata }

def mapBlocksForScanner (rawBlocks : List RawBlock) : Except String (List ScannerCompactBlock) :=
  mapExcept mapBlock rawBlocks

/-! ## TransactionLedger (src/web/src/state/transactionsStore.ts) -/

/-- Ledger write `setTransactionsForKey`: drop the records owned by `keyId`, append `txs`. -/
def setTransactionsForKey (transactions : List ZecTransaction) (keyId : String)
    (txs : List ZecTransaction) : List ZecTransaction :=
  (transactions.filter (fun t => t.keyId ≠ keyId)) ++ txs

/-- Ledger `clearAll`. -/
def clearAllTransactions (_transactions : List ZecTransaction) : List ZecTransaction := []

/-! ## AlertEngine (src/web/src/state/alertsStore.ts)

`generateId` is a random-id supply in the source; it is embedded as a
deterministic counter threaded through the state, which preserves everything
the logic depends on (ids are opaque). `Date.now()` is passed in as `now`. -/

structure AlertsState where
  rules : List AlertRule
  alerts : List Alert
  nextId : Nat
deriving DecidableEq, Repr

def generateId (n : Nat) : String := "id-" ++ toString n

def addRule (s : AlertsState) (name : String) (ruleType : String) (threshold : Nat)
    (enabled : Bool) (now : Nat) : AlertsState :=
  { s with
    rules := s.rules ++ [{ id := generateId s.nextId, name := name, ruleType := ruleType,
                           threshold := threshold, enabled := enabled, createdAt := now }],
    nextId := s.nextId + 1 }

def removeRule (s : AlertsState) (id : String) : AlertsState :=
  { s with
    rules := s.rules.filter (fun r => r.id ≠ id),
    alerts := s.alerts.filter (fun a => a.ruleId ≠ id) }

def toggleRule (s : AlertsState) (id : String) : AlertsState :=
  { s with
    rules := s.rules.map (fun r => if r.id = id then { r with enabled := !r.enabled } else r) }

/-- Left-pad a number to four digits. -/
def pad4 (n : Nat) : String :=
  let s := toString n
  String.mk (List.replicate (4 - s.length) '0') ++ s

/-- Renders `(amount / 100_000_000).toFixed(4)`: the zatoshi amount, rendered in ZEC
to four decimal digits (rounded half-up on the 10^4 zatoshi boundary). -/
def zecDisplay (amountZat : Nat) : String :=
  let scaled := (amountZat + 5000) / 10000
  toString (scaled / 10000) ++ "." ++ pad4 (scaled % 10000)

/-- The message built for a triggered `large_tx` rule:
`` `Large ${incoming|outgoing} transaction: ${zec} ZEC (${pool})` ``. -/
def largeTxMessage (tx : ZecTransaction) : String :=
  "Large " ++ (if tx.direction = TxDirection.dirIn then "incoming" else "outgoing")
    ++ " transaction: " ++ zecDisplay tx.amountZat ++ " ZEC (" ++ tx.pool.render ++ ")"

/-- The rule-kind switch body: the message when `rule` triggers on `tx`.
Only the `large_tx` arm exists; it triggers when `amount >= rule.threshold`. -/
def ruleHit (rule : AlertRule) (tx : ZecTransaction) : Option String :=
  if rule.enabled = false then none
  else if rule.ruleType = "large_tx" then
    if rule.threshold ≤ tx.amountZat then some (largeTxMessage tx) else none
  else none

/-- The inner `for (const rule of rules)` loop for one transaction: every
enabled triggering rule pushes its own alert (the loop does not stop at the
first hit). -/
def alertsForTx (rules : List AlertRule) (tx : ZecTransaction) (now : Nat)
    (ctr : Nat) : List Alert × Nat :=
  match rules with
  | [] => ([], ctr)
  | r :: rest =>
    match ruleHit r tx with
    | none => alertsForTx rest tx now ctr
    | some msg =>
      let p := alertsForTx rest tx now (ctr + 1)
      ({ id := generateId ctr, ruleId := r.id, txid := some tx.txid,
         message := msg, timestamp := now, acknowledged := false } :: p.1, p.2)

/-- The outer `for (const tx of txs)` loop: a transaction whose txid is in the
skip set contributes nothing; the others contribute `alertsForTx` in order. -/
def newAlertsFor (rules : List AlertRule) (existingTxids : List String)
    (txs : List ZecTransaction) (now : Nat) (ctr : Nat) : List Alert × Nat :=
  match txs with
  | [] => ([], ctr)
  | tx :: rest =>
    if existingTxids.contains tx.txid then newAlertsFor rules existingTxids rest now ctr
    else
      let p := alertsForTx rules tx now ctr
      let q := newAlertsFor rules existingTxids rest now p.2
      (p.1 ++ q.1, q.2)

/-- Rule evaluation `checkTransactions`: returns the batch of new alerts and the updated
state. The skip set is the txids of the alerts existing at entry (it is not
refreshed while the call runs). -/
def checkTransactions (s : AlertsState) (txs : List ZecTransaction) (now : Nat) :
    List Alert × AlertsState :=
  let p := newAlertsFor s.rules (s.alerts.filterMap Alert.txid) txs now s.nextId
  (p.1, { s with alerts := p.1 ++ s.alerts, nextId := p.2 })

def acknowledgeAlert (s : AlertsState) (id : String) : AlertsState :=
  { s with
    alerts := s.alerts.map (fun a => if a.id = id then { a with acknowledged := true } else a) }

def clearAlerts (s : AlertsState) : AlertsState := { s with alerts := [] }

/-! ## AuditSummarizer (src/audit.ts, buildAuditSummary)

`BigInt` sums are embedded as unbounded `Int`; the string fields hold the
decimal rendering produced by `BigInt.prototype.toString`. `generatedAt` is
passed in. -/

structure KeySummary where
  keyId : String
  label : String
  totalReceivedZat : String
  totalSentZat : String
  netZat : String
  txCount : Nat
deriving DecidableEq, Repr

structure AuditSummary where
  generatedAt : String
  keySummaries : List KeySummary
deriving DecidableEq, Repr

/-- The `for (const tx of txs)` accumulation: `(received, sent)` as exact
integers. -/
def sumDirected (txs : List ZecTransaction) : Int × Int :=
  txs.foldl
    (fun p tx =>
      if tx.direction = TxDirection.dirIn then (p.1 + (tx.amountZat : Int), p.2)
      else (p.1, p.2 + (tx.amountZat : Int)))
    (0, 0)

def buildKeySummary (k : ViewingKeyProfile) (transactions : List ZecTransaction) : KeySummary :=
  let txs := transactions.filter (fun t => t.keyId = k.id)
  let p := sumDirected txs
  { keyId := k.id, label := k.label,
    totalReceivedZat := toString p.1, totalSentZat := toString p.2,
    netZat := toString (p.1 - p.2), txCount := txs.length }

def buildAuditSummary (generatedAt : String) (keys : List ViewingKeyProfile)
    (transactions : List ZecTransaction) : AuditSummary :=
  { generatedAt := generatedAt,
    keySummaries := keys.map (fun k => buildKeySummary k transactions) }

/-! ## Key registry (src/web/src/state/keysStore.ts) -/

structure KeysState where
  keys : List ViewingKeyProfile
  activeKeyId : Option String
deriving DecidableEq, Repr

def addKey (s : KeysState) (id : String) (viewingKey : String) (label : Option String)
    (now : Nat) : KeysState :=
  { keys := s.keys ++ [{ id := id,
                         label := label.getD ("Key " ++ toString (s.keys.length + 1)),
                         viewingKey := viewingKey, createdAt := now }],
    activeKeyId := some id }

def removeKey (s : KeysState) (id : String) : KeysState :=
  let nextKeys := s.keys.filter (fun k => k.id ≠ id)
  let nextActive := if s.activeKeyId = some id
    then (nextKeys.head?.map ViewingKeyProfile.id)
    else s.activeKeyId
  { keys := nextKeys, activeKeyId := nextActive }

def setActiveKey (s : KeysState) (id : String) : KeysState :=
  if (s.keys.find? (fun k => k.id = id)).isNone then s
  else { s with activeKeyId := some id }

/-! ## ScanOrchestrator (src/App.tsx, handleScanAllKeys / handleScanActiveKey)

The external ScanEngine (`scanWithViewingKey`) is a collaborator: it is
passed in as a function from the key profile to either a record list or a
`ScanFailure` message. The `for` loop over keys runs sequentially; a throw
escapes to the surrounding `catch`, embedded as the `Option String` error
slot of the outcome. -/

structure ScanOutcome where
  ledger : List ZecTransaction
  alertsState : AlertsState
  scanError : Option String
  totalTxs : Nat
deriving Repr

/-- The loop body of `handleScanAllKeys` from key list position onward. -/
def scanAllKeys (engine : ViewingKeyProfile → Except String (List ZecTransaction))
    (keys : List ViewingKeyProfile) (ledger : List ZecTransaction)
    (astate : AlertsState) (now : Nat) (total : Nat) : ScanOutcome :=
  match keys with
  | [] => { ledger := ledger, alertsState := astate, scanError := none, totalTxs := total }
  | k :: rest =>
    match engine k with
    | .error e => { ledger := ledger, alertsState := astate, scanError := some e, totalTxs := total }
    | .ok txs =>
      scanAllKeys engine rest (setTransactionsForKey ledger k.id txs)
        (checkTransactions astate txs now).2 now (total + txs.length)

/-- Single-key scan `handleScanActiveKey` after block normalization: one key. -/
def scanActiveKey (engine : ViewingKeyProfile → Except String (List ZecTransaction))
    (key : ViewingKeyProfile) (ledger : List ZecTransaction) (astate : AlertsState)
    (now : Nat) : ScanOutcome :=
  match engine key with
  | .error e => { ledger := ledger, alertsState := astate, scanError := some e, totalTxs := 0 }
  | .ok txs =>
    { ledger := setTransactionsForKey ledger key.id txs,
      alertsState := (checkTransactions astate txs now).2,
      scanError := none, totalTxs := txs.length }

def txForeignKey : ZecTransaction :=
  { txid := "tx-b", height := 10, time := 20, amountZat := 5, direction := .dirIn,
    memo := none, keyId := "B", pool := .sapling }

def txOwnKey : ZecTransaction :=
  { txid := "tx-a", height := 11, time := 21, amountZat := 7, direction := .dirOut,
    memo := none, keyId := "A", pool := .orchard }

def keyProfileA : ViewingKeyProfile :=
  { id := "a", label := "Key A", viewingKey := "uview-a", createdAt := 1 }

def keyProfileB : ViewingKeyProfile :=
  { id := "b", label := "Key B", viewingKey := "uview-b", createdAt := 2 }

/-! ### AuditSummarizer theorems (C7) -/

/-- Specification-level total received: the exact sum of the amounts of the
inbound records. -/
def receivedOf (txs : List ZecTransaction) : Int :=
  ((txs.filter (fun t => t.direction = TxDirection.dirIn)).map
    (fun t => (t.amountZat : Int))).sum

/-- Specification-level total sent: the exact sum of the amounts of the
outbound records. -/
def sentOf (txs : List ZecTransaction) : Int :=
  ((txs.filter (fun t => t.direction = TxDirection.dirOut)).map
    (fun t => (t.amountZat : Int))).sum

def bigTxIn : ZecTransaction :=
  { txid := "big-in", height := 50, time := 60, amountZat := 2 ^ 60, direction := .dirIn,
    memo := none, keyId := "a", pool := .sapling }

def bigTxOut : ZecTransaction :=
  { txid := "big-out", height := 51, time := 61, amountZat := 2 ^ 59, direction := .dirOut,
    memo := none, keyId := "a", pool := .orchard }

/-! ### Substring machinery (for claims about message contents) -/

/-- Whether `cand` is a prefix of `l`. -/
def listHasPre (cand l : List Char) : Bool :=
  match cand, l with
  | [], _ => true
  | _ :: _, [] => false
  | a :: as, b :: bs => a = b && listHasPre as bs

/-- Whether `sub` occurs contiguously somewhere in `l`. -/
def listHasSub (sub l : List Char) : Bool :=
  match l with
  | [] => listHasPre sub []
  | _ :: bs => listHasPre sub l || listHasSub sub bs

/-- Whether `s` contains `sub` as a contiguous substring. -/
def strContainsSub (s sub : String) : Bool :=
  listHasSub sub.data s.data

/-- An ordered sequence of `checkTransactions` calls: collects every emitted
batch and threads the state. -/
def runEvaluations (s : AlertsState) (batches : List (List ZecTransaction × Nat)) :
    List Alert × AlertsState :=
  match batches with
  | [] => ([], s)
  | (txs, now) :: rest =>
    let p := checkTransactions s txs now
    let q := runEvaluations p.2 rest
    (p.1 ++ q.1, q.2)

/-! ### AlertEngine claim theorems (C1, C8, C9) -/

def dupRuleA : AlertRule :=
  { id := "r1", name := "R1", ruleType := "large_tx", threshold := 0, enabled := true,
    createdAt := 0 }

def dupRuleB : AlertRule :=
  { id := "r2", name := "R2", ruleType := "large_tx", threshold := 0, enabled := true,
    createdAt := 0 }

def dupTx : ZecTransaction :=
  { txid := "t1", height := 1, time := 2, amountZat := 5, direction := .dirIn,
    memo := none, keyId := "k", pool := .sapling }

def dupRuleState : AlertsState := { rules := [dupRuleA, dupRuleB], alerts := [], nextId := 0 }

def priorAlert : Alert :=
  { id := "a0", ruleId := "r1", txid := some "t", message := "m", timestamp := 0,
    acknowledged := false }

def gateState : AlertsState := { rules := [dupRuleA], alerts := [priorAlert], nextId := 0 }

def freshTx : ZecTransaction :=
  { txid := "u", height := 1, time := 2, amountZat := 9, direction := .dirOut,
    memo := none, keyId := "k", pool := .orchard }

def freshEmitted : Alert :=
  { id := "id-0", ruleId := "r1", txid := some "u",
    message := "Large outgoing transaction: 0.0000 ZEC (orchard)", timestamp := 3,
    acknowledged := false }

def scenarioATx : ZecTransaction :=
  { txid := "txa", height := 1, time := 2, amountZat := 150000000, direction := .dirIn,
    memo := none, keyId := "k1", pool := .sapling }

def scenarioBRule : AlertRule :=
  { id := "large_tx_rule", name := "large_tx", ruleType := "large_tx",
    threshold := 100000000, enabled := true, createdAt := 0 }

def scenarioBState : AlertsState := { rules := [scenarioBRule], alerts := [], nextId := 0 }

def toggledEmitted : Alert :=
  { id := "id-0", ruleId := "r2", txid := some "t1",
    message := "Large incoming transaction: 0.0000 ZEC (sapling)", timestamp := 4,
    acknowledged := false }

/-! ### BlockNormalizer claim theorems (C2, C5) -/

def goodRawBlock : RawBlock :=
  { protoVersion := some 4, height := some 100, hash := .strv "aa", prevHash := .strv "bb",
    time := some 5, vtx := some [], chainMetadata := none }

def badRawBlock : RawBlock :=
  { protoVersion := some 4, height := some 101, hash := .badv, prevHash := .strv "aa",
    time := some 6, vtx := some [], chainMetadata := none }

/-! Well-formedness of binary fields, and the raw/canonical correspondence
used to state order preservation. -/

def bufWF (v : BufVal) : Bool :=
  (bufferJsonToHex v).toOption.isSome

def outputWF (o : RawOutput) : Bool :=
  bufWF o.cmu && bufWF o.ephemeralKey && bufWF o.ciphertext

def actionWF (a : RawAction) : Bool :=
  bufWF (a.nullifier.orElse a.nf) && bufWF a.cmx && bufWF a.ephemeralKey && bufWF a.ciphertext

def txWF (tx : RawTx) : Bool :=
  bufWF (tx.txid.orElse tx.hash) && (tx.spends.getD []).all (fun s => bufWF s.nf)
    && (tx.outputs.getD []).all outputWF && (tx.actions.getD []).all actionWF

def blockWF (b : RawBlock) : Bool :=
  bufWF b.hash && bufWF b.prevHash && (b.vtx.getD []).all txWF

def spendCorresponds (r : RawSpend) (o : ScannerCompactSaplingSpend) : Prop :=
  bufferJsonToHex r.nf = Except.ok o.nf

def outputCorresponds (r : RawOutput) (o : ScannerCompactSaplingOutput) : Prop :=
  bufferJsonToHex r.cmu = Except.ok o.cmu ∧
  bufferJsonToHex r.ephemeralKey = Except.ok o.ephemeralKey ∧
  bufferJsonToHex r.ciphertext = Except.ok o.ciphertext

def actionCorresponds (r : RawAction) (o : ScannerCompactOrchardAction) : Prop :=
  bufferJsonToHex (r.nullifier.orElse r.nf) = Except.ok o.nf ∧
  bufferJsonToHex r.cmx = Except.ok o.cmx ∧
  bufferJsonToHex r.ephemeralKey = Except.ok o.ephemeralKey ∧
  bufferJsonToHex r.ciphertext = Except.ok o.ciphertext

def txCorresponds (r : RawTx) (o : ScannerCompactTx) : Prop :=
  o.index = r.index.getD 0 ∧
  bufferJsonToHex (r.txid.orElse r.hash) = Except.ok o.txid ∧
  o.fee = r.fee ∧
  o.spends.length = (r.spends.getD []).length ∧
  (∀ j (hj : j < (r.spends.getD []).length) (hj' : j < o.spends.length),
    spendCorresponds ((r.spends.getD []).get ⟨j, hj⟩) (o.spends.get ⟨j, hj'⟩)) ∧
  o.outputs.length = (r.outputs.getD []).length ∧
  (∀ j (hj : j < (r.outputs.getD []).length) (hj' : j < o.outputs.length),
    outputCorresponds ((r.outputs.getD []).get ⟨j, hj⟩) (o.outputs.get ⟨j, hj'⟩)) ∧
  o.actions.length = (r.actions.getD []).length ∧
  (∀ j (hj : j < (r.actions.getD []).length) (hj' : j < o.actions.length),
    actionCorresponds ((r.actions.getD []).get ⟨j, hj⟩) (o.actions.get ⟨j, hj'⟩))

def blockCorresponds (r : RawBlock) (o : ScannerCompactBlock) : Prop :=
  o.protoVersion = r.protoVersion.getD 0 ∧
  o.height = r.height.getD 0 ∧
  o.time = r.time.getD 0 ∧
  bufferJsonToHex r.hash = Except.ok o.hash ∧
  bufferJsonToHex r.prevHash = Except.ok o.prevHash ∧
  (r.chainMetadata = none → o.chainMetadata = none) ∧
  (∀ m, r.chainMetadata = some m →
    o.chainMetadata
      = some { saplingCommitmentTreeSize := m.saplingCommitmentTreeSize.getD 0,
               orchardCommitmentTreeSize := m.orchardCommitmentTreeSize }) ∧
  o.vtx.length = (r.vtx.getD []).length ∧
  (∀ j (hj : j < (r.vtx.getD []).length) (hj' : j < o.vtx.length),
    txCorresponds ((r.vtx.getD []).get ⟨j, hj⟩) (o.vtx.get ⟨j, hj'⟩))

def richRawTx : RawTx :=
  { index := none, txid := .strv "tt", hash := .nullv, fee := some 3,
    spends := some [{ nf := .arrv [1, 2] }],
    outputs := some [{ cmu := .strv "cc", ephemeralKey := .arrv [255], ciphertext := .nullv }],
    actions := some [{ nullifier := .nullv, nf := .strv "nn", cmx := .strv "xx",
                       ephemeralKey := .strv "ee", ciphertext := .objv (some [0, 16]) }] }

def richRawBlock : RawBlock :=
  { protoVersion := none, height := none, hash := .arrv [171, 205], prevHash := .nullv,
    time := none, vtx := some [richRawTx], chainMetadata := none }

/-- A raw block whose chainMetadata is present but carries neither
commitment-tree size. -/
def metaRawBlock : RawBlock :=
  { protoVersion := none, height := none, hash := .nullv, prevHash := .nullv,
    time := none, vtx := some [],
    chainMetadata := some { saplingCommitmentTreeSize := none,
                            orchardCommitmentTreeSize := none } }

/-- The canonical block the normalizer actually produces for `metaRawBlock`. -/
def metaCanonicalBlock : ScannerCompactBlock :=
  { protoVersion := 0, height := 0, hash := "", prevHash := "", time := 0, vtx := [],
    chainMetadata := some { saplingCommitmentTreeSize := 0,
                            orchardCommitmentTreeSize := none } }

def scanKey1Tx : ZecTransaction :=
  { txid := "s1", height := 3, time := 4, amountZat := 11, direction := .dirIn,
    memo := none, keyId := "a", pool := .sapling }

/-- A test-double engine: succeeds for key id "a", fails for every other
key with a scan failure. -/
def failingEngine (k : ViewingKeyProfile) : Except String (List ZecTransaction) :=
  if k.id = "a" then Except.ok [scanKey1Tx] else Except.error "ScanFailure"

def emptyAlerts : AlertsState := { rules := [], alerts := [], nextId := 0 }

/-! Lemmas about the codec. -/

theorem byteToHex_length (b : Int) : (byteToHex b).length = 2 := by
  simp [byteToHex, String.length]

theorem byteToHex_mask (b : Int) : byteToHex b = byteToHex (b % 256) := by
  simp [byteToHex, Int.emod_emod_of_dvd b (dvd_refl 256)]

theorem bytesToHex_length (bs : List Int) : (bytesToHex bs).length = 2 * bs.length := by
  simp only [bytesToHex, String.join_eq, String.length]
  induction bs with
  | nil => rfl
  | cons b tl ih =>
    simp only [List.map_cons, List.flatten_cons, List.length_append, ih]
    have hb := byteToHex_length b
    simp only [String.length] at hb
    simp only [List.length_cons]
    omega

theorem hexDigit_lt16_lower (n : Nat) (h : n < 16) :
    hexDigit n ∈ ("0123456789abcdef".data) := by
  interval_cases n <;> decide

theorem byteToHex_chars_lower (b : Int) :
    ∀ c ∈ (byteToHex b).data, c ∈ ("0123456789abcdef".data) := by
  intro c hc
  have hv : (b % 256).toNat < 256 := by
    have h1 : 0 ≤ b % 256 := Int.emod_nonneg b (by norm_num)
    have h2 : b % 256 < 256 := Int.emod_lt_of_pos b (by norm_num)
    omega
  simp only [byteToHex, String.mk, List.mem_cons, List.not_mem_nil, or_false] at hc
  rcases hc with h | h
  · subst h; exact hexDigit_lt16_lower _ (by omega)
  · subst h; exact hexDigit_lt16_lower _ (by omega)

/-! Generic lemmas about `mapExcept`. -/

theorem mapExcept_ok_length {f : α → Except ε β} {l : List α} {out : List β}
    (h : mapExcept f l = .ok out) : out.length = l.length := by
  induction l generalizing out with
  | nil => simp [mapExcept] at h; simp [← h]
  | cons a tl ih =>
    simp only [mapExcept] at h
    cases hfa : f a with
    | error e => rw [hfa] at h; exact absurd h (by simp)
    | ok b =>
      rw [hfa] at h
      cases htl : mapExcept f tl with
      | error e => rw [htl] at h; exact absurd h (by simp)
      | ok bs =>
        rw [htl] at h
        simp only [Except.ok.injEq] at h
        subst h
        simp [ih htl]

theorem mapExcept_ok_get {f : α → Except ε β} {l : List α} {out : List β}
    (h : mapExcept f l = .ok out) (i : Nat) (hi : i < l.length) (hi' : i < out.length) :
    f (l.get ⟨i, hi⟩) = .ok (out.get ⟨i, hi'⟩) := by
  induction l generalizing out i with
  | nil => exact absurd hi (by simp)
  | cons a tl ih =>
    simp only [mapExcept] at h
    cases hfa : f a with
    | error e => rw [hfa] at h; exact absurd h (by simp)
    | ok b =>
      rw [hfa] at h
      cases htl : mapExcept f tl with
      | error e => rw [htl] at h; exact absurd h (by simp)
      | ok bs =>
        rw [htl] at h
        simp only [Except.ok.injEq] at h
        subst h
        cases i with
        | zero => simpa using hfa
        | succ j =>
          simp only [List.get_cons_succ]
          exact ih htl j (by simpa using hi) (by simpa using hi')

/-- Fail-fast: the first element on which `f` throws makes the whole map
throw that error, regardless of what follows. -/
theorem mapExcept_fail_fast {f : α → Except ε β} (pre : List α) (a : α) (rest : List α)
    {e : ε} (hpre : ∀ x ∈ pre, ∃ b, f x = .ok b) (ha : f a = .error e) :
    mapExcept f (pre ++ a :: rest) = .error e := by
  induction pre with
  | nil => simp [mapExcept, ha]
  | cons p tl ih =>
    obtain ⟨b, hb⟩ := hpre p (by simp)
    have htl := ih (fun x hx => hpre x (by simp [hx]))
    simp [mapExcept, hb, htl]

/-! ## Theorems -/

theorem bytesToHex_append (bs cs : List Int) :
    bytesToHex (bs ++ cs) = bytesToHex bs ++ bytesToHex cs := by
  simp only [bytesToHex, String.join_eq, List.map_append, List.flatten_append]
  rfl

/-- C4: the binary-field codec passes strings through unchanged; an array
of byte values is encoded per byte masked to 8 bits as two lowercase hex
digits, concatenated in array order (output length twice the array length);
an object wrapping such an array under `data` encodes the wrapped array the
same way; null/undefined yields the empty string; any other shape fails with
the unsupported-encoding error. -/
theorem bufferCodec_spec :
    (bufferJsonToHex BufVal.nullv = Except.ok "") ∧
    (∀ s, bufferJsonToHex (BufVal.strv s) = Except.ok s) ∧
    (∀ bs, bufferJsonToHex (BufVal.arrv bs) = Except.ok (bytesToHex bs) ∧
      (bytesToHex bs).length = 2 * bs.length) ∧
    (∀ bs cs, bytesToHex (bs ++ cs) = bytesToHex bs ++ bytesToHex cs) ∧
    (∀ b : Int, bytesToHex [b] = byteToHex b ∧ (byteToHex b).length = 2 ∧
      byteToHex b = byteToHex (b % 256) ∧
      ∀ c ∈ (byteToHex b).data, c ∈ ("0123456789abcdef".data)) ∧
    (∀ bs, bufferJsonToHex (BufVal.objv (some bs)) = bufferJsonToHex (BufVal.arrv bs)) ∧
    (bufferJsonToHex (BufVal.objv none) = Except.error unsupportedEncodingMsg) ∧
    (bufferJsonToHex BufVal.badv = Except.error unsupportedEncodingMsg) := by
  refine ⟨rfl, fun s => rfl, fun bs => ⟨rfl, bytesToHex_length bs⟩, bytesToHex_append,
    fun b => ⟨?_, byteToHex_length b, byteToHex_mask b, byteToHex_chars_lower b⟩,
    fun bs => rfl, rfl, rfl⟩
  simp [bytesToHex, String.join_eq]

theorem bufferCodec_spec_witness : 'a' ∈ ("0123456789abcdef".data) := by
  obtain ⟨-, -, -, -, h5, -⟩ := bufferCodec_spec
  exact (h5 171).2.2.2 'a' (by decide)

/-- C6 counterexample: `setTransactionsForKey` does not check that the
supplied records are owned by the given key, so a record carrying a foreign
keyId is duplicated by a repeated identical call — the operation is not
idempotent as claimed. -/
theorem replaceForKey_idempotent_counterexample :
    setTransactionsForKey (setTransactionsForKey [] "A" [txForeignKey]) "A" [txForeignKey]
      ≠ setTransactionsForKey [] "A" [txForeignKey] := by decide

/-- C6 (amended): when every supplied record is owned by the given key,
`setTransactionsForKey` is idempotent under repeated identical calls; it
always replaces exactly the key's partition (result holds the supplied
records plus every record of other keys, unchanged); and an empty record set
removes exactly that key's records. -/
theorem replaceForKey_spec (L txs : List ZecTransaction) (keyId : String)
    (h : ∀ t ∈ txs, t.keyId = keyId) :
    setTransactionsForKey (setTransactionsForKey L keyId txs) keyId txs
      = setTransactionsForKey L keyId txs ∧
    (∀ t, t ∈ setTransactionsForKey L keyId txs ↔ (t ∈ L ∧ t.keyId ≠ keyId) ∨ t ∈ txs) ∧
    (∀ t, t ∈ setTransactionsForKey L keyId [] ↔ t ∈ L ∧ t.keyId ≠ keyId) := by
  refine ⟨?_, ?_, ?_⟩
  · simp only [setTransactionsForKey, List.filter_append, List.append_cancel_right_eq]
    rw [List.filter_filter]
    have hfil : txs.filter (fun t => decide ¬t.keyId = keyId) = [] := by
      apply List.filter_eq_nil_iff.mpr
      intro t ht
      simp [h t ht]
    rw [hfil, List.append_nil]
    apply List.filter_congr
    intro t _
    simp
  · intro t
    simp only [setTransactionsForKey, List.mem_append, List.mem_filter,
      decide_not, Bool.not_eq_true', decide_eq_false_iff_not]
  · intro t
    simp only [setTransactionsForKey, List.append_nil, List.mem_filter,
      decide_not, Bool.not_eq_true', decide_eq_false_iff_not]

theorem replaceForKey_spec_witness :
    setTransactionsForKey (setTransactionsForKey [txForeignKey] "A" [txOwnKey]) "A" [txOwnKey]
      = setTransactionsForKey [txForeignKey] "A" [txOwnKey] :=
  (replaceForKey_spec [txForeignKey] [txOwnKey] "A" (by decide)).1

/-- C10: `removeKey` removes only the key with the given id (the rest of
the registry survives in registration order); when the removed key was
active, the new active id is the first remaining key's id, or none when no
keys remain; otherwise the active id is unchanged. -/
theorem removeKey_spec (s : KeysState) (id : String) :
    (removeKey s id).keys = s.keys.filter (fun k => k.id ≠ id) ∧
    (∀ k, k ∈ (removeKey s id).keys ↔ k ∈ s.keys ∧ k.id ≠ id) ∧
    (s.activeKeyId ≠ some id → (removeKey s id).activeKeyId = s.activeKeyId) ∧
    (s.activeKeyId = some id → (removeKey s id).keys = [] →
      (removeKey s id).activeKeyId = none) ∧
    (s.activeKeyId = some id → ∀ k' tl, (removeKey s id).keys = k' :: tl →
      (removeKey s id).activeKeyId = some k'.id) := by
  refine ⟨rfl, ?_, ?_, ?_, ?_⟩
  · intro k
    simp only [removeKey, List.mem_filter, decide_not, Bool.not_eq_true',
      decide_eq_false_iff_not]
  · intro hne
    simp [removeKey, hne]
  · intro hact hnil
    show (if s.activeKeyId = some id
        then ((s.keys.filter (fun k => k.id ≠ id)).head?.map ViewingKeyProfile.id)
        else s.activeKeyId) = none
    rw [if_pos hact]
    have hk : s.keys.filter (fun k => k.id ≠ id) = [] := hnil
    rw [hk]
    rfl
  · intro hact k' tl hcons
    show (if s.activeKeyId = some id
        then ((s.keys.filter (fun k => k.id ≠ id)).head?.map ViewingKeyProfile.id)
        else s.activeKeyId) = some k'.id
    rw [if_pos hact]
    have hk : s.keys.filter (fun k => k.id ≠ id) = k' :: tl := hcons
    rw [hk]
    rfl

theorem removeKey_spec_witness :
    (removeKey { keys := [keyProfileA, keyProfileB], activeKeyId := some "a" } "a").activeKeyId
      = some keyProfileB.id :=
  (removeKey_spec { keys := [keyProfileA, keyProfileB], activeKeyId := some "a" } "a").2.2.2.2
    (by decide) keyProfileB [] (by decide)

theorem sumDirected_eq (txs : List ZecTransaction) :
    sumDirected txs = (receivedOf txs, sentOf txs) := by
  suffices h : ∀ p : Int × Int,
      txs.foldl
        (fun p tx =>
          if tx.direction = TxDirection.dirIn then (p.1 + (tx.amountZat : Int), p.2)
          else (p.1, p.2 + (tx.amountZat : Int)))
        p = (p.1 + receivedOf txs, p.2 + sentOf txs) by
    have h0 := h (0, 0)
    simpa [sumDirected] using h0
  induction txs with
  | nil =>
    intro p
    simp [receivedOf, sentOf]
  | cons tx tl ih =>
    intro p
    cases htx : tx.direction with
    | dirIn => simp [receivedOf, sentOf, htx, ih, List.filter_cons, add_assoc]
    | dirOut => simp [receivedOf, sentOf, htx, ih, List.filter_cons, add_assoc]

/-- C7: the audit summary has exactly one row per configured key, in key
order; the row's received/sent fields render the exact integer sums of the
key's inbound/outbound amounts, net renders received − sent (a possibly
negative exact integer), and count is the number of the key's records; a key
with no records reports "0"/"0"/"0" and count 0. -/
theorem auditSummary_spec (generatedAt : String) (keys : List ViewingKeyProfile)
    (txs : List ZecTransaction) :
    ((buildAuditSummary generatedAt keys txs).keySummaries).length = keys.length ∧
    ∀ i (hi : i < keys.length)
      (hi' : i < ((buildAuditSummary generatedAt keys txs).keySummaries).length),
      (((buildAuditSummary generatedAt keys txs).keySummaries).get ⟨i, hi'⟩).keyId
          = (keys.get ⟨i, hi⟩).id ∧
      (((buildAuditSummary generatedAt keys txs).keySummaries).get ⟨i, hi'⟩).label
          = (keys.get ⟨i, hi⟩).label ∧
      (((buildAuditSummary generatedAt keys txs).keySummaries).get ⟨i, hi'⟩).totalReceivedZat
          = toString (receivedOf (txs.filter (fun t => t.keyId = (keys.get ⟨i, hi⟩).id))) ∧
      (((buildAuditSummary generatedAt keys txs).keySummaries).get ⟨i, hi'⟩).totalSentZat
          = toString (sentOf (txs.filter (fun t => t.keyId = (keys.get ⟨i, hi⟩).id))) ∧
      (((buildAuditSummary generatedAt keys txs).keySummaries).get ⟨i, hi'⟩).netZat
          = toString (receivedOf (txs.filter (fun t => t.keyId = (keys.get ⟨i, hi⟩).id))
              - sentOf (txs.filter (fun t => t.keyId = (keys.get ⟨i, hi⟩).id))) ∧
      (((buildAuditSummary generatedAt keys txs).keySummaries).get ⟨i, hi'⟩).txCount
          = (txs.filter (fun t => t.keyId = (keys.get ⟨i, hi⟩).id)).length ∧
      (txs.filter (fun t => t.keyId = (keys.get ⟨i, hi⟩).id) = [] →
        (((buildAuditSummary generatedAt keys txs).keySummaries).get ⟨i, hi'⟩).totalReceivedZat
            = "0" ∧
        (((buildAuditSummary generatedAt keys txs).keySummaries).get ⟨i, hi'⟩).totalSentZat
            = "0" ∧
        (((buildAuditSummary generatedAt keys txs).keySummaries).get ⟨i, hi'⟩).netZat = "0" ∧
        (((buildAuditSummary generatedAt keys txs).keySummaries).get ⟨i, hi'⟩).txCount = 0) := by
  constructor
  · simp [buildAuditSummary]
  · intro i hi hi'
    have hget : ((buildAuditSummary generatedAt keys txs).keySummaries).get ⟨i, hi'⟩
        = buildKeySummary (keys.get ⟨i, hi⟩) txs := by
      simp [buildAuditSummary]
    rw [hget]
    refine ⟨rfl, rfl, ?_, ?_, ?_, rfl, ?_⟩
    · simp [buildKeySummary, sumDirected_eq]
    · simp [buildKeySummary, sumDirected_eq]
    · simp [buildKeySummary, sumDirected_eq]
    · intro hnil
      simp only [buildKeySummary, hnil, sumDirected_eq]
      refine ⟨rfl, rfl, rfl, rfl⟩

theorem auditSummary_spec_witness :
    (((buildAuditSummary "g" [keyProfileA] [bigTxIn, bigTxOut]).keySummaries).get
        ⟨0, by decide⟩).netZat = "576460752303423488" := by
  have h := (auditSummary_spec "g" [keyProfileA] [bigTxIn, bigTxOut]).2 0 (by decide) (by decide)
  rw [h.2.2.2.2.1]
  decide

theorem listHasPre_self_append (cand rest : List Char) :
    listHasPre cand (cand ++ rest) = true := by
  induction cand with
  | nil => rfl
  | cons a as ih => simp [listHasPre, ih]

theorem listHasSub_cons {sub l : List Char} (h : listHasSub sub l = true) (x : Char) :
    listHasSub sub (x :: l) = true := by
  cases l with
  | nil => simp_all [listHasSub]
  | cons b bs =>
    show (listHasPre sub (x :: b :: bs) || listHasSub sub (b :: bs)) = true
    simp [h]

theorem listHasSub_append_left {sub l : List Char} (pre : List Char)
    (h : listHasSub sub l = true) : listHasSub sub (pre ++ l) = true := by
  induction pre with
  | nil => simpa using h
  | cons x xs ih => exact listHasSub_cons ih x

theorem listHasSub_here (sub rest : List Char) :
    listHasSub sub (sub ++ rest) = true := by
  cases hs : sub ++ rest with
  | nil =>
    have hsub : sub = [] := by
      cases sub with
      | nil => rfl
      | cons a as => simp at hs
    subst hsub
    rfl
  | cons b bs =>
    have hp := listHasPre_self_append sub rest
    rw [hs] at hp
    show (listHasPre sub (b :: bs) || listHasSub sub bs) = true
    simp [hp]

theorem listHasPre_append_right {sub l : List Char} (post : List Char)
    (h : listHasPre sub l = true) : listHasPre sub (l ++ post) = true := by
  induction sub generalizing l with
  | nil => rfl
  | cons a as ih =>
    cases l with
    | nil => simp [listHasPre] at h
    | cons b bs =>
      simp only [listHasPre, Bool.and_eq_true] at h
      simp only [List.cons_append, listHasPre, Bool.and_eq_true]
      exact ⟨h.1, ih h.2⟩

theorem listHasSub_nil_sub (l : List Char) : listHasSub [] l = true := by
  cases l <;> rfl

theorem listHasSub_append_right {sub l : List Char} (post : List Char)
    (h : listHasSub sub l = true) : listHasSub sub (l ++ post) = true := by
  induction l with
  | nil =>
    cases sub with
    | nil => exact listHasSub_nil_sub post
    | cons a as => simp [listHasSub, listHasPre] at h
  | cons b bs ih =>
    have h' : (listHasPre sub (b :: bs) || listHasSub sub bs) = true := h
    show (listHasPre sub (b :: bs ++ post) || listHasSub sub (bs ++ post)) = true
    simp only [Bool.or_eq_true] at h' ⊢
    cases h' with
    | inl hp =>
      left
      have := listHasPre_append_right post hp
      simpa using this
    | inr hs => exact Or.inr (ih hs)

theorem strContainsSub_self (s : String) : strContainsSub s s = true := by
  have h := listHasSub_here s.data []
  simpa using h

theorem strContainsSub_append_left (a : String) {s sub : String}
    (h : strContainsSub s sub = true) : strContainsSub (a ++ s) sub = true := by
  simp only [strContainsSub, String.data_append] at h ⊢
  exact listHasSub_append_left a.data h

theorem strContainsSub_append_right (b : String) {s sub : String}
    (h : strContainsSub s sub = true) : strContainsSub (s ++ b) sub = true := by
  simp only [strContainsSub, String.data_append] at h ⊢
  exact listHasSub_append_right b.data h

/-! ### AlertEngine lemmas -/

theorem alertsForTx_mem {rules : List AlertRule} {tx : ZecTransaction} {now ctr : Nat}
    {a : Alert} (ha : a ∈ (alertsForTx rules tx now ctr).1) :
    a.txid = some tx.txid ∧ ∃ r ∈ rules, a.ruleId = r.id ∧ (ruleHit r tx).isSome = true := by
  induction rules generalizing ctr with
  | nil => simp [alertsForTx] at ha
  | cons r rest ih =>
    simp only [alertsForTx] at ha
    cases hr : ruleHit r tx with
    | none =>
      rw [hr] at ha
      obtain ⟨h1, r', hr', h2⟩ := ih ha
      exact ⟨h1, r', List.mem_cons_of_mem _ hr', h2⟩
    | some msg =>
      rw [hr] at ha
      simp only [List.mem_cons] at ha
      cases ha with
      | inl h =>
        subst h
        exact ⟨rfl, r, by simp, by simp [hr]⟩
      | inr h =>
        obtain ⟨h1, r', hr', h2⟩ := ih h
        exact ⟨h1, r', List.mem_cons_of_mem _ hr', h2⟩

theorem newAlertsFor_mem {rules : List AlertRule} {ex : List String}
    {txs : List ZecTransaction} {now ctr : Nat} {a : Alert}
    (ha : a ∈ (newAlertsFor rules ex txs now ctr).1) :
    ∃ tx ∈ txs, ex.contains tx.txid = false ∧ a.txid = some tx.txid ∧
      ∃ r ∈ rules, a.ruleId = r.id ∧ (ruleHit r tx).isSome = true := by
  induction txs generalizing ctr with
  | nil => simp [newAlertsFor] at ha
  | cons tx rest ih =>
    simp only [newAlertsFor] at ha
    by_cases hc : ex.contains tx.txid
    · rw [if_pos hc] at ha
      obtain ⟨tx', htx', rest'⟩ := ih ha
      exact ⟨tx', List.mem_cons_of_mem _ htx', rest'⟩
    · rw [if_neg hc] at ha
      simp only [List.mem_append] at ha
      cases ha with
      | inl h =>
        obtain ⟨h1, h2⟩ := alertsForTx_mem h
        exact ⟨tx, by simp, by simpa using hc, h1, h2⟩
      | inr h =>
        obtain ⟨tx', htx', rest'⟩ := ih h
        exact ⟨tx', List.mem_cons_of_mem _ htx', rest'⟩

/-- Single-call form of the dedup gate: an alert already referencing txid `t`
suppresses every emission for `t` in this call and survives into the new
state. -/
theorem checkTransactions_gate {s : AlertsState} {t : String}
    (h : ∃ a ∈ s.alerts, a.txid = some t) (txs : List ZecTransaction) (now : Nat) :
    (∀ a ∈ (checkTransactions s txs now).1, a.txid ≠ some t) ∧
    (∃ a ∈ (checkTransactions s txs now).2.alerts, a.txid = some t) := by
  obtain ⟨a0, ha0, ht0⟩ := h
  have hmem : t ∈ s.alerts.filterMap Alert.txid :=
    List.mem_filterMap.mpr ⟨a0, ha0, ht0⟩
  constructor
  · intro a ha heq
    obtain ⟨tx, _, hcon, htxid, -⟩ := newAlertsFor_mem ha
    rw [heq] at htxid
    have : tx.txid = t := by simpa using htxid.symm
    rw [this] at hcon
    have hcon2 : List.elem t (s.alerts.filterMap Alert.txid) = false := hcon
    rw [List.elem_iff.mpr hmem] at hcon2
    exact absurd hcon2 (by simp)
  · refine ⟨a0, ?_, ht0⟩
    simp only [checkTransactions]
    exact List.mem_append_right _ ha0

/-- C1 counterexample: the inner rule loop does not stop at the first
triggering rule, so a single `checkTransactions` call with two enabled
matching rules emits two alerts for the same txid — refuting "within a
single evaluate call no txid yields more than one alert". -/
theorem alertDedup_counterexample :
    ((checkTransactions dupRuleState [dupTx] 0).1.map Alert.txid)
      = [some "t1", some "t1"] := by decide

/-- C1 (amended): across evaluate calls the per-txid gate does hold —
once any alert referencing a txid exists in the alert list, no later
`checkTransactions` call in any sequence of calls emits an alert for that
txid (within one call, however, each enabled matching rule emits its own
alert). -/
theorem alertDedup_across_calls (s : AlertsState) (t : String)
    (batches : List (List ZecTransaction × Nat))
    (h : ∃ a ∈ s.alerts, a.txid = some t) :
    ∀ a ∈ (runEvaluations s batches).1, a.txid ≠ some t := by
  induction batches generalizing s with
  | nil =>
    intro a ha
    simp [runEvaluations] at ha
  | cons batch rest ih =>
    obtain ⟨txs, now⟩ := batch
    intro a ha
    simp only [runEvaluations, List.mem_append] at ha
    obtain ⟨h1, h2⟩ := checkTransactions_gate h txs now
    cases ha with
    | inl hin => exact h1 a hin
    | inr hin => exact ih _ h2 a hin

theorem alertDedup_across_calls_witness : freshEmitted.txid ≠ some "t" :=
  alertDedup_across_calls gateState "t" [([freshTx], 3)]
    ⟨priorAlert, by decide⟩ freshEmitted (by decide)

/-- C8: an enabled `large_tx` rule triggers exactly when the record's
amount is at least the threshold; the generated message contains the
direction word and the amount rendered as amount / 10^8 to 4 decimal
digits; concretely, with one enabled `large_tx` rule of threshold 100000000
the evaluation of one record of amount 150000000 returns exactly one alert
whose message contains "1.5000", and a second evaluation of the same record
returns no alerts. -/
theorem largeTxRule_spec :
    (∀ (rule : AlertRule) (tx : ZecTransaction), rule.enabled = true →
      rule.ruleType = "large_tx" →
      (((ruleHit rule tx).isSome = true) ↔ rule.threshold ≤ tx.amountZat) ∧
      (rule.threshold ≤ tx.amountZat → ruleHit rule tx = some (largeTxMessage tx)) ∧
      strContainsSub (largeTxMessage tx)
        (if tx.direction = TxDirection.dirIn then "incoming" else "outgoing") = true ∧
      strContainsSub (largeTxMessage tx) (zecDisplay tx.amountZat) = true) ∧
    ((checkTransactions scenarioBState [scenarioATx] 7).1.map
        (fun a => strContainsSub a.message "1.5000") = [true]) ∧
    ((checkTransactions (checkTransactions scenarioBState [scenarioATx] 7).2
        [scenarioATx] 8).1 = []) := by
  refine ⟨?_, by decide, by decide⟩
  intro rule tx h1 h2
  refine ⟨⟨?_, ?_⟩, ?_, ?_, ?_⟩
  · intro hs
    by_cases hth : rule.threshold ≤ tx.amountZat
    · exact hth
    · simp [ruleHit, h1, h2, hth] at hs
  · intro hth
    simp [ruleHit, h1, h2, hth]
  · intro hth
    simp [ruleHit, h1, h2, hth]
  · show strContainsSub ("Large "
        ++ (if tx.direction = TxDirection.dirIn then "incoming" else "outgoing")
        ++ " transaction: " ++ zecDisplay tx.amountZat ++ " ZEC (" ++ tx.pool.render ++ ")")
        (if tx.direction = TxDirection.dirIn then "incoming" else "outgoing") = true
    exact strContainsSub_append_right ")" (strContainsSub_append_right tx.pool.render
      (strContainsSub_append_right " ZEC (" (strContainsSub_append_right
        (zecDisplay tx.amountZat) (strContainsSub_append_right " transaction: "
          (strContainsSub_append_left "Large " (strContainsSub_self _))))))
  · show strContainsSub ("Large "
        ++ (if tx.direction = TxDirection.dirIn then "incoming" else "outgoing")
        ++ " transaction: " ++ zecDisplay tx.amountZat ++ " ZEC (" ++ tx.pool.render ++ ")")
        (zecDisplay tx.amountZat) = true
    exact strContainsSub_append_right ")" (strContainsSub_append_right tx.pool.render
      (strContainsSub_append_right " ZEC ("
        (strContainsSub_append_left _ (strContainsSub_self _))))

theorem largeTxRule_spec_witness :
    ruleHit scenarioBRule scenarioATx = some (largeTxMessage scenarioATx) :=
  (largeTxRule_spec.1 scenarioBRule scenarioATx rfl rfl).2.1 (by decide)

/-- C9: `removeRule id` removes exactly the rule with that id and
discards exactly the alerts whose ruleId is that id, leaving all other
rules and alerts in place; toggling an enabled rule to disabled leaves the
alert list unchanged and prevents that rule from triggering in subsequent
`checkTransactions` calls. -/
theorem ruleCrud_spec (s : AlertsState) (id : String) (txs : List ZecTransaction)
    (now : Nat) :
    (∀ r, r ∈ (removeRule s id).rules ↔ r ∈ s.rules ∧ r.id ≠ id) ∧
    (∀ a, a ∈ (removeRule s id).alerts ↔ a ∈ s.alerts ∧ a.ruleId ≠ id) ∧
    ((toggleRule s id).alerts = s.alerts) ∧
    (∀ r ∈ (toggleRule s id).rules, r.id ≠ id → r ∈ s.rules) ∧
    ((∀ r ∈ s.rules, r.id = id → r.enabled = true) →
      ∀ a ∈ (checkTransactions (toggleRule s id) txs now).1, a.ruleId ≠ id) := by
  refine ⟨?_, ?_, rfl, ?_, ?_⟩
  · intro r
    simp only [removeRule, List.mem_filter, decide_not, Bool.not_eq_true',
      decide_eq_false_iff_not]
  · intro a
    simp only [removeRule, List.mem_filter, decide_not, Bool.not_eq_true',
      decide_eq_false_iff_not]
  · intro r hr hne
    obtain ⟨r', hr', hf⟩ := List.mem_map.mp hr
    by_cases hid : r'.id = id
    · rw [if_pos hid] at hf
      exfalso
      apply hne
      rw [← hf]
      exact hid
    · rw [if_neg hid] at hf
      rwa [← hf]
  · intro hen a ha heq
    obtain ⟨tx, -, -, -, r, hr, hrid, hhit⟩ := newAlertsFor_mem ha
    obtain ⟨r', hr', hf⟩ := List.mem_map.mp hr
    by_cases hid : r'.id = id
    · have hen' := hen r' hr' hid
      rw [if_pos hid] at hf
      have hrenabled : r.enabled = false := by
        rw [← hf]
        simp [hen']
      simp [ruleHit, hrenabled] at hhit
    · rw [if_neg hid] at hf
      apply hid
      rw [hf, ← hrid, heq]

theorem ruleCrud_spec_witness : toggledEmitted.ruleId ≠ "r1" :=
  (ruleCrud_spec dupRuleState "r1" [dupTx] 4).2.2.2.2 (by decide) toggledEmitted (by decide)

/-- C2 counterexample: a single malformed binary field does not abort
only its containing block — with one well-formed block (normalizable on its
own) followed by one malformed block, the whole call fails, so no canonical
record is produced for the well-formed block either. -/
theorem blockNormalizer_isolation_counterexample :
    (mapBlocksForScanner [goodRawBlock]).toOption.isSome = true ∧
    mapBlocksForScanner [goodRawBlock, badRawBlock] = Except.error unsupportedEncodingMsg ∧
    (mapBlocksForScanner [goodRawBlock, badRawBlock]).toOption.isSome = false := by decide

/-- C2 (amended): a codec failure in any block aborts the whole
normalization call: if every earlier block maps cleanly and one block's
codec throws, `mapBlocksForScanner` propagates exactly that error and
produces no canonical records at all, regardless of the blocks after it. -/
theorem blockNormalizer_fail_fast (pre : List RawBlock) (b : RawBlock)
    (rest : List RawBlock) (e : String)
    (hpre : ∀ x ∈ pre, ∃ out, mapBlock x = Except.ok out)
    (hb : mapBlock b = Except.error e) :
    mapBlocksForScanner (pre ++ b :: rest) = Except.error e :=
  mapExcept_fail_fast pre b rest hpre hb

theorem blockNormalizer_fail_fast_witness :
    mapBlocksForScanner [goodRawBlock, badRawBlock]
      = Except.error unsupportedEncodingMsg := by
  apply blockNormalizer_fail_fast [goodRawBlock] badRawBlock [] unsupportedEncodingMsg
  · intro x hx
    rw [List.mem_singleton] at hx
    subst hx
    exact ⟨{ protoVersion := 4, height := 100, hash := "aa", prevHash := "bb",
             time := 5, vtx := [], chainMetadata := none }, by decide⟩
  · decide

theorem bufWF_ok {v : BufVal} (h : bufWF v = true) :
    ∃ s, bufferJsonToHex v = Except.ok s := by
  cases hv : bufferJsonToHex v with
  | ok s => exact ⟨s, rfl⟩
  | error e =>
    rw [bufWF, hv] at h
    simp [Except.toOption] at h

theorem mapExcept_ok_of_all {f : α → Except ε β} {l : List α}
    (h : ∀ x ∈ l, ∃ y, f x = Except.ok y) : ∃ out, mapExcept f l = Except.ok out := by
  induction l with
  | nil => exact ⟨[], rfl⟩
  | cons a tl ih =>
    obtain ⟨b, hb⟩ := h a (by simp)
    obtain ⟨bs, hbs⟩ := ih (fun x hx => h x (by simp [hx]))
    exact ⟨b :: bs, by simp [mapExcept, hb, hbs]⟩

theorem mapSpend_ok {r : RawSpend} (h : bufWF r.nf = true) :
    ∃ o, mapSpend r = Except.ok o := by
  obtain ⟨s, hs⟩ := bufWF_ok h
  exact ⟨{ nf := s }, by simp [mapSpend, bind, Except.bind, hs, pure, Except.pure]⟩

theorem mapOutput_ok {r : RawOutput} (h : outputWF r = true) :
    ∃ o, mapOutput r = Except.ok o := by
  simp only [outputWF, Bool.and_eq_true] at h
  obtain ⟨⟨h1, h2⟩, h3⟩ := h
  obtain ⟨s1, hs1⟩ := bufWF_ok h1
  obtain ⟨s2, hs2⟩ := bufWF_ok h2
  obtain ⟨s3, hs3⟩ := bufWF_ok h3
  exact ⟨{ cmu := s1, ephemeralKey := s2, ciphertext := s3 },
    by simp [mapOutput, bind, Except.bind, hs1, hs2, hs3, pure, Except.pure]⟩

theorem mapAction_ok {r : RawAction} (h : actionWF r = true) :
    ∃ o, mapAction r = Except.ok o := by
  simp only [actionWF, Bool.and_eq_true] at h
  obtain ⟨⟨⟨h1, h2⟩, h3⟩, h4⟩ := h
  obtain ⟨s1, hs1⟩ := bufWF_ok h1
  obtain ⟨s2, hs2⟩ := bufWF_ok h2
  obtain ⟨s3, hs3⟩ := bufWF_ok h3
  obtain ⟨s4, hs4⟩ := bufWF_ok h4
  exact ⟨{ nf := s1, cmx := s2, ephemeralKey := s3, ciphertext := s4 },
    by simp [mapAction, bind, Except.bind, hs1, hs2, hs3, hs4, pure, Except.pure]⟩

theorem mapTx_ok {r : RawTx} (h : txWF r = true) : ∃ o, mapTx r = Except.ok o := by
  simp only [txWF, Bool.and_eq_true, List.all_eq_true] at h
  obtain ⟨⟨⟨h1, h2⟩, h3⟩, h4⟩ := h
  obtain ⟨s1, hs1⟩ := bufWF_ok h1
  obtain ⟨sp, hsp⟩ := mapExcept_ok_of_all (fun x hx => mapSpend_ok (h2 x hx))
  obtain ⟨op, hop⟩ := mapExcept_ok_of_all (fun x hx => mapOutput_ok (h3 x hx))
  obtain ⟨ap, hap⟩ := mapExcept_ok_of_all (fun x hx => mapAction_ok (h4 x hx))
  exact ⟨{ index := r.index.getD 0, txid := s1, fee := r.fee,
           spends := sp, outputs := op, actions := ap },
    by simp [mapTx, bind, Except.bind, hs1, hsp, hop, hap, pure, Except.pure]⟩

theorem mapBlock_ok {b : RawBlock} (h : blockWF b = true) :
    ∃ o, mapBlock b = Except.ok o := by
  simp only [blockWF, Bool.and_eq_true, List.all_eq_true] at h
  obtain ⟨⟨h1, h2⟩, h3⟩ := h
  obtain ⟨s1, hs1⟩ := bufWF_ok h1
  obtain ⟨s2, hs2⟩ := bufWF_ok h2
  obtain ⟨vtx, hvtx⟩ := mapExcept_ok_of_all (fun x hx => mapTx_ok (h3 x hx))
  exact ⟨{ protoVersion := b.protoVersion.getD 0, height := b.height.getD 0,
           hash := s1, prevHash := s2, time := b.time.getD 0, vtx := vtx,
           chainMetadata := b.chainMetadata.map mapChainMetadata },
    by simp [mapBlock, bind, Except.bind, hs1, hs2, hvtx, pure, Except.pure]⟩

theorem mapSpend_corresponds {r : RawSpend} {o : ScannerCompactSaplingSpend}
    (h : mapSpend r = Except.ok o) : spendCorresponds r o := by
  simp only [mapSpend, bind, Except.bind] at h
  cases h1 : bufferJsonToHex r.nf with
  | error e => rw [h1] at h; exact absurd h (by simp)
  | ok s =>
    rw [h1] at h
    simp only [pure, Except.pure, Except.ok.injEq] at h
    subst h
    exact h1

theorem mapOutput_corresponds {r : RawOutput} {o : ScannerCompactSaplingOutput}
    (h : mapOutput r = Except.ok o) : outputCorresponds r o := by
  simp only [mapOutput, bind, Except.bind] at h
  cases h1 : bufferJsonToHex r.cmu with
  | error e => rw [h1] at h; exact absurd h (by simp)
  | ok s1 =>
    rw [h1] at h
    cases h2 : bufferJsonToHex r.ephemeralKey with
    | error e => rw [h2] at h; exact absurd h (by simp)
    | ok s2 =>
      rw [h2] at h
      cases h3 : bufferJsonToHex r.ciphertext with
      | error e => rw [h3] at h; exact absurd h (by simp)
      | ok s3 =>
        rw [h3] at h
        simp only [pure, Except.pure, Except.ok.injEq] at h
        subst h
        exact ⟨h1, h2, h3⟩

theorem mapAction_corresponds {r : RawAction} {o : ScannerCompactOrchardAction}
    (h : mapAction r = Except.ok o) : actionCorresponds r o := by
  simp only [mapAction, bind, Except.bind] at h
  cases h1 : bufferJsonToHex (r.nullifier.orElse r.nf) with
  | error e => rw [h1] at h; exact absurd h (by simp)
  | ok s1 =>
    rw [h1] at h
    cases h2 : bufferJsonToHex r.cmx with
    | error e => rw [h2] at h; exact absurd h (by simp)
    | ok s2 =>
      rw [h2] at h
      cases h3 : bufferJsonToHex r.ephemeralKey with
      | error e => rw [h3] at h; exact absurd h (by simp)
      | ok s3 =>
        rw [h3] at h
        cases h4 : bufferJsonToHex r.ciphertext with
        | error e => rw [h4] at h; exact absurd h (by simp)
        | ok s4 =>
          rw [h4] at h
          simp only [pure, Except.pure, Except.ok.injEq] at h
          subst h
          exact ⟨h1, h2, h3, h4⟩

theorem mapTx_corresponds {r : RawTx} {o : ScannerCompactTx}
    (h : mapTx r = Except.ok o) : txCorresponds r o := by
  simp only [mapTx, bind, Except.bind] at h
  cases h1 : bufferJsonToHex (r.txid.orElse r.hash) with
  | error e => rw [h1] at h; exact absurd h (by simp)
  | ok s1 =>
    rw [h1] at h
    cases h2 : mapExcept mapSpend (r.spends.getD []) with
    | error e => rw [h2] at h; exact absurd h (by simp)
    | ok sp =>
      rw [h2] at h
      cases h3 : mapExcept mapOutput (r.outputs.getD []) with
      | error e => rw [h3] at h; exact absurd h (by simp)
      | ok op =>
        rw [h3] at h
        cases h4 : mapExcept mapAction (r.actions.getD []) with
        | error e => rw [h4] at h; exact absurd h (by simp)
        | ok ap =>
          rw [h4] at h
          simp only [pure, Except.pure, Except.ok.injEq] at h
          subst h
          refine ⟨rfl, h1, rfl, mapExcept_ok_length h2, ?_,
            mapExcept_ok_length h3, ?_, mapExcept_ok_length h4, ?_⟩
          · intro j hj hj'
            exact mapSpend_corresponds (mapExcept_ok_get h2 j hj hj')
          · intro j hj hj'
            exact mapOutput_corresponds (mapExcept_ok_get h3 j hj hj')
          · intro j hj hj'
            exact mapAction_corresponds (mapExcept_ok_get h4 j hj hj')

theorem mapBlock_corresponds {b : RawBlock} {o : ScannerCompactBlock}
    (h : mapBlock b = Except.ok o) : blockCorresponds b o := by
  simp only [mapBlock, bind, Except.bind] at h
  cases h1 : bufferJsonToHex b.hash with
  | error e => rw [h1] at h; exact absurd h (by simp)
  | ok s1 =>
    rw [h1] at h
    cases h2 : bufferJsonToHex b.prevHash with
    | error e => rw [h2] at h; exact absurd h (by simp)
    | ok s2 =>
      rw [h2] at h
      cases h3 : mapExcept mapTx (b.vtx.getD []) with
      | error e => rw [h3] at h; exact absurd h (by simp)
      | ok vtx =>
        rw [h3] at h
        simp only [pure, Except.pure, Except.ok.injEq] at h
        subst h
        refine ⟨rfl, rfl, rfl, h1, h2, ?_, ?_, mapExcept_ok_length h3, ?_⟩
        · intro hm
          simp [hm]
        · intro m hm
          simp [hm, mapChainMetadata]
        · intro j hj hj'
          exact mapTx_corresponds (mapExcept_ok_get h3 j hj hj')

/-- C5 counterexample: commitment-tree sizes do not uniformly default to 0
when absent — for a block whose chainMetadata is present but carries
neither size, the normalizer defaults only the sapling size to 0 and
leaves the absent orchard size absent (`none`, not `some 0`). -/
theorem blockNormalizer_orchard_counterexample :
    mapBlocksForScanner [metaRawBlock] = Except.ok [metaCanonicalBlock] ∧
    metaCanonicalBlock.chainMetadata
      = some { saplingCommitmentTreeSize := 0, orchardCommitmentTreeSize := none } ∧
    metaCanonicalBlock.chainMetadata
      ≠ some { saplingCommitmentTreeSize := 0, orchardCommitmentTreeSize := some 0 } := by
  decide

/-- C5 (amended): over well-formed binary fields, normalization succeeds on
every block and the i-th canonical block corresponds to the i-th raw block —
order and length of vtx, spends, outputs, and actions are preserved
index-by-index; absent protoVersion/height/time (and, inside
`blockCorresponds`, tx index and the sapling commitment-tree size) default
to 0, while an absent orchard commitment-tree size is passed through as
absent; an absent chainMetadata is left absent rather than defaulted or
rejected. -/
theorem blockNormalizer_spec (blocks : List RawBlock)
    (hwf : ∀ b ∈ blocks, blockWF b = true) :
    ∃ outs, mapBlocksForScanner blocks = Except.ok outs ∧
      outs.length = blocks.length ∧
      ∀ i (hi : i < blocks.length) (hi' : i < outs.length),
        blockCorresponds (blocks.get ⟨i, hi⟩) (outs.get ⟨i, hi'⟩) := by
  obtain ⟨outs, houts⟩ := mapExcept_ok_of_all (fun b hb => mapBlock_ok (hwf b hb))
  refine ⟨outs, houts, mapExcept_ok_length houts, ?_⟩
  intro i hi hi'
  exact mapBlock_corresponds (mapExcept_ok_get houts i hi hi')

theorem blockNormalizer_spec_witness :
    (mapBlocksForScanner [richRawBlock]).toOption.isSome = true := by
  obtain ⟨outs, houts, -⟩ := blockNormalizer_spec [richRawBlock] (by decide)
  rw [houts]
  rfl

/-! ### ScanOrchestrator claim theorem (C3) -/

theorem setTransactionsForKey_preserves_other {L txs : List ZecTransaction}
    {keyId otherId : String} (hne : otherId ≠ keyId)
    (htxs : ∀ t ∈ txs, t.keyId ≠ otherId) :
    (setTransactionsForKey L keyId txs).filter (fun t => t.keyId = otherId)
      = L.filter (fun t => t.keyId = otherId) := by
  simp only [setTransactionsForKey, List.filter_append]
  have h2 : txs.filter (fun t => t.keyId = otherId) = [] :=
    List.filter_eq_nil_iff.mpr (fun t ht => by simp [htxs t ht])
  rw [h2, List.append_nil, List.filter_filter]
  apply List.filter_congr
  intro t _
  by_cases h : t.keyId = otherId
  · simp [h, hne]
  · simp [h]

/-- C3: when the engine call for key `k` fails and every key before it in
this `scanAllKeys` call succeeded, the error is surfaced, the keys after `k`
are never processed (the outcome does not depend on them), the ledger and
alert state are exactly those left by committing the earlier keys (so
earlier commits are retained, not rolled back, and the failed key's records
never reach alert evaluation), and — provided the earlier keys and their
records do not claim `k`'s key id — the failed key's ledger partition is
exactly what it was before the call. -/
theorem scanAll_failure_spec (engine : ViewingKeyProfile → Except String (List ZecTransaction))
    (pre : List ViewingKeyProfile) (k : ViewingKeyProfile) (rest : List ViewingKeyProfile)
    (L : List ZecTransaction) (astate : AlertsState) (now total : Nat) (e : String)
    (hpre : ∀ x ∈ pre, ∃ txs, engine x = Except.ok txs)
    (hk : engine k = Except.error e) :
    (scanAllKeys engine (pre ++ k :: rest) L astate now total).scanError = some e ∧
    (∀ rest', scanAllKeys engine (pre ++ k :: rest') L astate now total
      = scanAllKeys engine (pre ++ k :: rest) L astate now total) ∧
    (scanAllKeys engine (pre ++ k :: rest) L astate now total).ledger
      = (scanAllKeys engine pre L astate now total).ledger ∧
    (scanAllKeys engine (pre ++ k :: rest) L astate now total).alertsState
      = (scanAllKeys engine pre L astate now total).alertsState ∧
    ((∀ x ∈ pre, x.id ≠ k.id ∧
        ∀ txs, engine x = Except.ok txs → ∀ t ∈ txs, t.keyId ≠ k.id) →
      ((scanAllKeys engine (pre ++ k :: rest) L astate now total).ledger.filter
          (fun t => t.keyId = k.id))
        = L.filter (fun t => t.keyId = k.id)) := by
  revert hpre
  induction pre generalizing L astate total with
  | nil =>
    intro _
    refine ⟨by simp [scanAllKeys, hk], ?_, by simp [scanAllKeys, hk], by simp [scanAllKeys, hk],
      fun _ => by simp [scanAllKeys, hk]⟩
    intro rest'
    simp [scanAllKeys, hk]
  | cons p pre' ih =>
    intro hpre
    obtain ⟨txs, htxs⟩ := hpre p (by simp)
    have hpre' : ∀ x ∈ pre', ∃ txs, engine x = Except.ok txs :=
      fun x hx => hpre x (by simp [hx])
    have hstep : ∀ rest'', scanAllKeys engine ((p :: pre') ++ k :: rest'') L astate now total
        = scanAllKeys engine (pre' ++ k :: rest'') (setTransactionsForKey L p.id txs)
            (checkTransactions astate txs now).2 now (total + txs.length) := by
      intro rest''
      simp [scanAllKeys, htxs]
    have hstep0 : scanAllKeys engine (p :: pre') L astate now total
        = scanAllKeys engine pre' (setTransactionsForKey L p.id txs)
            (checkTransactions astate txs now).2 now (total + txs.length) := by
      simp [scanAllKeys, htxs]
    obtain ⟨ih1, ih2, ih3, ih4, ih5⟩ :=
      ih (setTransactionsForKey L p.id txs) (checkTransactions astate txs now).2
        (total + txs.length) hpre'
    refine ⟨?_, ?_, ?_, ?_, ?_⟩
    · rw [hstep rest]
      exact ih1
    · intro rest'
      rw [hstep rest', hstep rest]
      exact ih2 rest'
    · rw [hstep rest, hstep0]
      exact ih3
    · rw [hstep rest, hstep0]
      exact ih4
    · intro hown
      rw [hstep rest]
      have hothers := ih5 (fun x hx => hown x (by simp [hx]))
      rw [hothers]
      obtain ⟨hpid, howntxs⟩ := hown p (by simp)
      exact setTransactionsForKey_preserves_other (Ne.symm hpid) (howntxs txs htxs)

theorem scanAll_failure_spec_witness :
    (scanAllKeys failingEngine [keyProfileA, keyProfileB] [] emptyAlerts 0 0).scanError
      = some "ScanFailure" := by
  have h := scanAll_failure_spec failingEngine [keyProfileA] keyProfileB [] [] emptyAlerts
    0 0 "ScanFailure" ?hpre ?hk
  · exact h.1
  case hpre =>
    intro x hx
    rw [List.mem_singleton] at hx
    subst hx
    exact ⟨[scanKey1Tx], rfl⟩
  case hk => rfl

end Zecscope
